import Mathlib

/-!
Shallow embedding of `src/rpc/mining.cpp` (mining-service RPC layer of a
Bitcoin SV style full node) and verification of its specification claims.

Conventions of the embedding:
* `uint256` hashes are modelled as `Nat`; C++ `unsigned int` arithmetic is
  modelled as `Nat` arithmetic with an explicit `% 2 ^ 32` where the source
  can overflow.
* External collaborators (validation engine, block assembler, mempool,
  chain state) appear as explicit oracle parameters, following the
  collaborator interfaces in the specification.
* A C++ function that can `throw JSONRPCError` is modelled as returning
  `Except RPCError _` (or returning the error alongside the mutated state
  when the source mutates statics before throwing).
-/

namespace MiningRPC

/-- Errors thrown via `JSONRPCError` / failed `assert` in the source. -/
inductive RPCError where
  | deserialization (msg : String)
  | txRejected (msg : String)
  | internal (msg : String)
  | outOfMemory (msg : String)
  | verifyError (msg : String)
  | assertFailed (msg : String)
deriving DecidableEq, Repr

/-- The three modes of a `CValidationState` (MODE_VALID / MODE_INVALID /
MODE_ERROR). -/
inductive VMode where
  | valid
  | invalid
  | error
deriving DecidableEq, Repr

/-- Model of `CValidationState`: its mode together with the reject reason
string.  A default-constructed state is valid with an empty reason. -/
structure CValidationState where
  mode : VMode
  rejectReason : String
deriving DecidableEq, Repr

/-- `CValidationState::IsValid`. -/
def CValidationState.IsValid (s : CValidationState) : Prop := s.mode = .valid

/-- `CValidationState.IsInvalid`. -/
def CValidationState.IsInvalid (s : CValidationState) : Prop := s.mode = .invalid

/-- `CValidationState.IsError`. -/
def CValidationState.IsError (s : CValidationState) : Prop := s.mode = .error

instance (s : CValidationState) : Decidable s.IsValid := by
  unfold CValidationState.IsValid; infer_instance

instance (s : CValidationState) : Decidable s.IsInvalid := by
  unfold CValidationState.IsInvalid; infer_instance

instance (s : CValidationState) : Decidable s.IsError := by
  unfold CValidationState.IsError; infer_instance

/-- The `UniValue` results `processBlock` / `BIP22ValidationResult` can
return: `NullUniValue` or a string. -/
inductive SubmitResult where
  | nullValue
  | str (s : String)
deriving DecidableEq, Repr

/-- `BIP22ValidationResult` from `src/rpc/mining.cpp`: turns a conclusive
`CValidationState` into a BIP22 result; an engine-internal error state is
surfaced as a thrown `RPC_VERIFY_ERROR`. -/
def BIP22ValidationResult (state : CValidationState) : Except RPCError SubmitResult :=
  if state.IsValid then
    .ok .nullValue
  else
    let strRejectReason := state.rejectReason
    if state.IsError then
      .error (.verifyError strRejectReason)
    else if state.IsInvalid then
      if strRejectReason = "" then .ok (.str "rejected")
      else .ok (.str strRejectReason)
    else
      -- Should be impossible.
      .ok (.str "valid?")

/-- Model of a transaction: only the fields `processBlock` inspects. -/
structure TxModel where
  isCoinBase : Bool
  hasP2SHOutput : Bool
deriving DecidableEq, Repr

/-- Model of a decoded block handed to `processBlock`. -/
structure BlockModel where
  txs : List TxModel
  hash : Nat
deriving DecidableEq, Repr

/-- What `mapBlockIndex.Get` exposes about an already-known block:
`IsValid(BlockValidity::SCRIPTS)` and `getStatus().isInvalid()`. -/
structure BlockIndexInfo where
  validScripts : Bool
  invalid : Bool
deriving DecidableEq, Repr

/-- One `BlockChecked` notification delivered by the validation engine
during the synchronous block operation: the checked block's hash and the
resulting validation state. -/
def CheckedEvent : Type := Nat × CValidationState

/-- `submitblock_StateCatcher.BlockChecked`: record the state only when the
notified hash matches the target hash (a later matching notification
overwrites an earlier one, exactly as the member assignment does). -/
def stateCatcherStep (target : Nat) (acc : Bool × CValidationState)
    (ev : Nat × CValidationState) : Bool × CValidationState :=
  if ev.1 ≠ target then acc else (true, ev.2)

/-- Folding all notifications delivered while the catcher is registered,
starting from the freshly constructed catcher (`found = false`, default
valid state). -/
def stateCatcherRun (target : Nat) (evs : List (Nat × CValidationState)) :
    Bool × CValidationState :=
  evs.foldl (stateCatcherStep target) (false, ⟨.valid, ""⟩)

/-- Observable interactions with the validation interface, used to check
that registration and unregistration are paired around exactly one
engine call. -/
inductive TraceEv where
  | register
  | engineCall
  | unregister
deriving DecidableEq, Repr

/-- `processBlock` from `src/rpc/mining.cpp`.

Inputs beyond the block itself:
* `indexEntry` — the result of `mapBlockIndex.Get(hash)`;
* `opResult` — what `performBlockOperation` returns (per the
  specification's collaborator interface it returns an `accepted` flag),
  paired with the `BlockChecked` notifications the engine delivers
  synchronously during that call.

The second component of the result is the trace of validation-interface
events (`RegisterValidationInterface`, the engine call,
`UnregisterValidationInterface`). -/
def processBlock (blk : BlockModel) (indexEntry : Option BlockIndexInfo)
    (opResult : Bool × List (Nat × CValidationState)) :
    Except RPCError SubmitResult × List TraceEv :=
  match blk.txs with
  | [] => (.error (.deserialization "Block does not start with a coinbase"), [])
  | tx0 :: _ =>
    if ¬ tx0.isCoinBase then
      (.error (.deserialization "Block does not start with a coinbase"), [])
    else if tx0.hasP2SHOutput then
      (.error (.txRejected "bad-txns-vout-p2sh"), [])
    else
      let hash := blk.hash
      -- duplicate check against the block index
      let dup : Option (Except RPCError SubmitResult) :=
        match indexEntry with
        | some pindex =>
          if pindex.validScripts then some (.ok (.str "duplicate"))
          else if pindex.invalid then some (.ok (.str "duplicate-invalid"))
          else none
        | none => none
      match dup with
      | some r => (r, [])
      | none =>
        let fBlockPresent := indexEntry.isSome
        let fAccepted := opResult.1
        let sc := stateCatcherRun hash opResult.2
        let trace : List TraceEv := [.register, .engineCall, .unregister]
        if fBlockPresent then
          if fAccepted ∧ ¬ sc.1 then (.ok (.str "duplicate-inconclusive"), trace)
          else (.ok (.str "duplicate"), trace)
        else if ¬ sc.1 then (.ok (.str "inconclusive"), trace)
        else (BIP22ValidationResult sc.2, trace)

/-! ## Block template cache (`getblocktemplate`, template mode) -/

/-- The static variables of `getblocktemplate` that implement the template
cache: `pindexPrev` (the tip identity the cached template was built
against, `none` = unbuilt), `nTransactionsUpdatedLast` (mempool counter
snapshot at build time) and `nStart` (build timestamp). -/
structure TemplateCacheState where
  pindexPrev : Option Nat
  nTransactionsUpdatedLast : Nat
  nStart : Int
deriving DecidableEq, Repr

/-- Ambient inputs of one cache-update step: the current chain tip, the
mempool counters, the clock, and whether the mining factory is configured
and the assembler produces a template. -/
structure TemplateEnv where
  tip : Nat
  mempoolTxUpdated : Nat
  frozenTxnUpdatedAt : Nat
  now : Int
  factory : Bool
  buildOk : Bool
deriving DecidableEq, Repr

/-- The "Update block" section of `getblocktemplate`: decide staleness,
clear `pindexPrev`, snapshot the counters, and attempt the rebuild.
Returns the updated static state, whether a rebuild was attempted, and the
error thrown (if any) — the statics keep their mutated values when the
rebuild throws.  On a successful build `CreateNewBlock` sets `pindexPrev`
to the tip it built on (out-parameter). -/
def getblocktemplateUpdateBlock (s : TemplateCacheState) (e : TemplateEnv) :
    TemplateCacheState × Bool × Option RPCError :=
  if s.pindexPrev ≠ some e.tip ∨
      (e.mempoolTxUpdated ≠ s.nTransactionsUpdatedLast ∧
        (e.now - s.nStart > 5 ∨ s.nTransactionsUpdatedLast < e.frozenTxnUpdatedAt)) then
    -- Clear pindexPrev so future calls make a new block, despite any
    -- failures from here on
    let s1 : TemplateCacheState :=
      { pindexPrev := none
        nTransactionsUpdatedLast := e.mempoolTxUpdated
        nStart := e.now }
    if ¬ e.factory then (s1, true, some (.internal "No mining factory available"))
    else if ¬ e.buildOk then (s1, true, some (.outOfMemory "Out of memory"))
    else ({ s1 with pindexPrev := some e.tip }, true, none)
  else (s, false, none)

/-- The staleness predicate exactly as the specification words it: the tip
differs from the one the cache was built against, or the mempool counter
differs from the snapshot and either more than 5 time-units elapsed since
the last build or the snapshot counter is below the mempool's
frozen-transactions watermark. -/
def templateStaleSpec (s : TemplateCacheState) (e : TemplateEnv) : Prop :=
  s.pindexPrev ≠ some e.tip ∨
    (e.mempoolTxUpdated ≠ s.nTransactionsUpdatedLast ∧
      (e.now - s.nStart > 5 ∨ s.nTransactionsUpdatedLast < e.frozenTxnUpdatedAt))

instance (s : TemplateCacheState) (e : TemplateEnv) :
    Decidable (templateStaleSpec s e) := by
  unfold templateStaleSpec; infer_instance

/-! ## Long-poll wait (`getblocktemplate` long-polling section) -/

/-- One iteration of the long-poll wait loop as observed from outside:
the chain-tip hash and RPC-running flag read at the loop condition (and at
the post-loop re-check reached from this round), whether `timed_wait` was
signalled before the deadline, and the mempool transactions-updated
counter read when a timeout fires.  The running flag is assumed stable
within one round (the loop-condition read and the post-loop read are
adjacent reads of the same flag). -/
structure PollRound where
  tip : Nat
  running : Bool
  signaled : Bool
  mempool : Nat
deriving DecidableEq, Repr

/-- Outcome of the long-poll wait: the loop returned normally, it threw
"Shutting down", or the supplied round trace ran out while the loop was
still waiting. -/
inductive WaitOutcome where
  | returned
  | shuttingDown
  | pending
deriving DecidableEq, Repr

/-- The `if (!IsRPCRunning()) throw` re-check performed after the wait
loop exits. -/
def pollExitOutcome (running : Bool) : WaitOutcome :=
  if running then .returned else .shuttingDown

/-- The long-poll wait loop of `getblocktemplate`, driven by a finite
trace of rounds.  `checktxtime` is the current absolute `timed_wait`
deadline (time-units after the wait started).  Returns the outcome and
the list of deadlines at which `timed_wait` was invoked. -/
def longPollLoop (watched baselineLP : Nat) (checktxtime : Int) :
    List PollRound → WaitOutcome × List Int
  | [] => (.pending, [])
  | r :: rest =>
    if r.tip = watched ∧ r.running = true then
      if r.signaled then
        let p := longPollLoop watched baselineLP checktxtime rest
        (p.1, checktxtime :: p.2)
      else if r.mempool ≠ baselineLP then
        -- Timeout: transactions changed since the baseline — break,
        -- then re-check IsRPCRunning.
        (pollExitOutcome r.running, [checktxtime])
      else
        let p := longPollLoop watched baselineLP (checktxtime + 10) rest
        (p.1, checktxtime :: p.2)
    else
      (pollExitOutcome r.running, [])

/-- The whole wait: `checktxtime` starts one minute (60 time-units) after
the wait begins. -/
def longPollWait (watched baselineLP : Nat) (rounds : List PollRound) :
    WaitOutcome × List Int :=
  longPollLoop watched baselineLP 60 rounds

/-- The wait outcome as the specification describes it: while the tip
equals the baseline, sleep; on a timeout compare the mempool counter to
the baseline and return if they differ; whenever the running flag is
observed false, fail with "shutting down". -/
def specWaitOutcome (watched baselineLP : Nat) : List PollRound → WaitOutcome
  | [] => .pending
  | r :: rest =>
    if r.tip = watched ∧ r.running = true then
      if r.signaled ∨ r.mempool = baselineLP then
        specWaitOutcome watched baselineLP rest
      else .returned
    else if r.running then .returned
    else .shuttingDown

/-- The `timed_wait` deadlines as the specification describes them: the
first timeout is 60 time-units, every subsequent timeout 10 time-units
later; `k` counts the timeouts that have already fired. -/
def specDeadlines (watched baselineLP : Nat) : Nat → List PollRound → List Int
  | _, [] => []
  | k, r :: rest =>
    if r.tip = watched ∧ r.running = true then
      (60 + 10 * (k : Int)) ::
        (if r.signaled then specDeadlines watched baselineLP k rest
         else if r.mempool = baselineLP then
           specDeadlines watched baselineLP (k + 1) rest
         else [])
    else []

/-- The `longpollid` parameter as `getblocktemplate` sees it: absent,
a string, or present with a non-string type. -/
inductive LPParam where
  | null
  | strVal (s : List Char)
  | nonStr
deriving DecidableEq, Repr

/-! ## Coinbase scriptSig serialization sizes (`CScript`, `CScriptNum`)

`IncrementExtraNonce` builds
`(CScript() << nHeight << CScriptNum(nExtraNonce)) + COINBASE_FLAGS` and
asserts that its size stays within `MAX_COINBASE_SCRIPTSIG_SIZE`.  The
serialization-length arithmetic below mirrors `CScriptNum::serialize` and
`CScript::operator<<`. -/

/-- Number of base-256 digits of `v` (length of the little-endian byte
list `CScriptNum::serialize` emits before the sign-byte adjustment). -/
def byteLen (v : Nat) : Nat :=
  if h : v = 0 then 0 else byteLen (v / 256) + 1
termination_by v
decreasing_by
  exact Nat.div_lt_self (Nat.pos_of_ne_zero h) (by norm_num)

/-- The most significant byte of `v` (meaningful for `v ≠ 0`). -/
def topByte (v : Nat) : Nat := v / 256 ^ (byteLen v - 1)

/-- Length of `CScriptNum(v).getvch()` for a non-negative value `v`:
zero serializes to the empty vector; otherwise the little-endian bytes of
`v`, plus one extra `0x00` when the top byte has its high bit set. -/
def scriptNumEncodingLen (v : Nat) : Nat :=
  if v = 0 then 0 else byteLen v + (if 128 ≤ topByte v then 1 else 0)

/-- Size contributed by `CScript::operator<<(const std::vector<uint8_t>&)`
for a data push of `len` bytes (opcode bytes plus the data). -/
def pushDataLen (len : Nat) : Nat :=
  if len < 76 then 1 + len
  else if len ≤ 0xff then 2 + len
  else if len ≤ 0xffff then 3 + len
  else 5 + len

/-- Size contributed by `CScript::operator<<(int64_t)` (`push_int64`) for
a non-negative value: `1..16` and `0` push a single opcode, anything else
pushes `CScriptNum(v).getvch()` as data. -/
def pushInt64Len (v : Nat) : Nat :=
  if 1 ≤ v ∧ v ≤ 16 then 1
  else if v = 0 then 1
  else pushDataLen (scriptNumEncodingLen v)

/-- The coinbase scriptSig after `IncrementExtraNonce`: the block height,
the extra nonce and the fixed `COINBASE_FLAGS` bytes. -/
structure CoinbaseSig where
  height : Nat
  extraNonce : Nat
  flags : List Nat
deriving DecidableEq, Repr

/-- Serialized size of the coinbase scriptSig
`(CScript() << nHeight << CScriptNum(nExtraNonce)) + COINBASE_FLAGS`. -/
def CoinbaseSig.size (s : CoinbaseSig) : Nat :=
  pushInt64Len s.height + pushDataLen (scriptNumEncodingLen s.extraNonce) +
    s.flags.length

/-- Model of the candidate `CBlock` fields `IncrementExtraNonce` touches:
the previous-block hash, the coinbase scriptSig, and the merkle root. -/
structure CBlockModel where
  hashPrevBlock : Nat
  coinbaseSig : CoinbaseSig
  hashMerkleRoot : Nat
deriving DecidableEq, Repr

/-- `IncrementExtraNonce` from `src/rpc/mining.cpp`.

* `merkleOf` — oracle for `BlockMerkleRoot` on the block whose coinbase
  scriptSig was replaced by the given one (the transaction set differs
  only in that script);
* `flags` — the fixed `COINBASE_FLAGS` bytes;
* `maxSig` — `MAX_COINBASE_SCRIPTSIG_SIZE`;
* `stored` — the function-static `hashPrevBlock`;
* `nExtraNonce` — the caller's extra-nonce counter (an `unsigned int`,
  hence the `% 2 ^ 32`).

Returns `none` when the `assert` on the scriptSig size fires, otherwise
the updated block, the new stored hash and the new counter. -/
def IncrementExtraNonce (merkleOf : CoinbaseSig → Nat) (flags : List Nat)
    (maxSig : Nat) (prevHeight : Nat) (blk : CBlockModel)
    (stored nExtraNonce : Nat) : Option (CBlockModel × Nat × Nat) :=
  let p := if stored ≠ blk.hashPrevBlock then (blk.hashPrevBlock, 0)
           else (stored, nExtraNonce)
  let n1 := (p.2 + 1) % 2 ^ 32
  -- Height first in coinbase required for block.version=2
  let nHeight := (prevHeight + 1) % 2 ^ 32
  let sig : CoinbaseSig := ⟨nHeight, n1, flags⟩
  if sig.size ≤ maxSig then
    some (⟨blk.hashPrevBlock, sig, merkleOf sig⟩, p.1, n1)
  else none

/-! ## Proof-of-work search (`generateBlocks`) -/

/-- `nInnerLoopCount = 0x100000`: the fixed bound of the inner
nonce-search loop. -/
def nInnerLoopCount : Nat := 0x100000

/-- The inner nonce-search loop of `generateBlocks`:
`while (nMaxTries > 0 && pblock->nNonce < nInnerLoopCount &&
!CheckProofOfWork(...)) { ++pblock->nNonce; --nMaxTries; }`.
`powOk nonce` is the oracle for `CheckProofOfWork` on this template at the
given nonce.  Returns the final nonce and the remaining budget. -/
def powLoop (powOk : Nat → Bool) : Nat → Nat → Nat × Nat
  | nonce, 0 => (nonce, 0)
  | nonce, b + 1 =>
    if nonce < nInnerLoopCount ∧ ¬ powOk nonce then
      powLoop powOk (nonce + 1) b
    else (nonce, b + 1)

/-- Number of `CheckProofOfWork` evaluations the inner loop performs. -/
def powLoopTests (powOk : Nat → Bool) : Nat → Nat → Nat
  | nonce, 0 => 0
  | nonce, b + 1 =>
    if nonce < nInnerLoopCount then
      if powOk nonce then 1 else 1 + powLoopTests powOk (nonce + 1) b
    else 0

/-- Number of failed `CheckProofOfWork` evaluations (those the loop
answers by incrementing the nonce and decrementing the budget). -/
def powLoopFailedTests (powOk : Nat → Bool) : Nat → Nat → Nat
  | nonce, 0 => 0
  | nonce, b + 1 =>
    if nonce < nInnerLoopCount then
      if powOk nonce then 0 else 1 + powLoopFailedTests powOk (nonce + 1) b
    else 0

/-- Summary of the extra-nonce state transition performed by
`IncrementExtraNonce`: the new stored previous-block hash and the new
counter value (used to state equations about `IncrementExtraNonce`). -/
def extraNonceNext (blockPrevHash stored n : Nat) : Nat × Nat :=
  let p := if stored ≠ blockPrevHash then (blockPrevHash, 0) else (stored, n)
  (p.1, (p.2 + 1) % 2 ^ 32)

/-- Oracles describing the external collaborators of `generateBlocks`;
indexed by `k`, the ordinal of the `CreateNewBlock` call. -/
structure GenEnv where
  /-- `mining::g_miningFactory` is configured. -/
  factory : Bool
  /-- The assembler returns a template on the `k`-th call (`none` models
  `CreateNewBlock` returning null). -/
  template : Nat → Option CBlockModel
  /-- `pindexPrev->GetHeight()` for the `k`-th call. -/
  prevHeight : Nat → Nat
  /-- `BlockMerkleRoot` for the `k`-th template as a function of its
  coinbase scriptSig. -/
  merkleOf : Nat → CoinbaseSig → Nat
  /-- `CheckProofOfWork` for the `k`-th template at a given nonce. -/
  powOk : Nat → Nat → Bool
  /-- Whether the `k`-th solved block's coinbase has a P2SH output. -/
  hasP2SH : Nat → Bool
  /-- `ProcessNewBlock` result for the `k`-th solved block. -/
  accepted : Nat → Bool
  /-- `GetHash().GetHex()` of the `k`-th template at its final nonce. -/
  blockHash : Nat → Nat → Nat
  /-- The fixed `COINBASE_FLAGS` bytes. -/
  flags : List Nat

/-- The `while (nHeight < nHeightEnd)` loop of `generateBlocks`.

State: `k` — ordinal of the next `CreateNewBlock` call; `rem` — blocks
still to produce (`nHeightEnd - nHeight`); `budget` — `nMaxTries`;
`stored`/`n` — the `IncrementExtraNonce` statics (stored previous-block
hash and extra-nonce counter); `acc` — `blockHashes` so far.

The assembler initializes a fresh template's header nonce to 0, so the
inner search starts at nonce 0 (modelled from the spec: the block
assembler hands out not-yet-searched templates; the assembler itself is
outside this source slice). -/
def generateLoop (env : GenEnv) (maxSig : Nat) :
    Nat → Nat → Nat → Nat → Nat → List Nat → Except RPCError (List Nat)
  | _, 0, _, _, _, acc => .ok acc
  | k, rem + 1, budget, stored, n, acc =>
    match env.template k with
    | none => .error (.internal "Couldn't create new block")
    | some blk =>
      match IncrementExtraNonce (env.merkleOf k) env.flags maxSig
          (env.prevHeight k) blk stored n with
      | none => .error (.assertFailed "coinbase scriptSig exceeds maximum size")
      | some (_, stored1, n1) =>
        let p := powLoop (env.powOk k) 0 budget
        if hb : p.2 = 0 then .ok acc
        else if hn : p.1 = nInnerLoopCount then
          generateLoop env maxSig (k + 1) (rem + 1) p.2 stored1 n1 acc
        else if env.hasP2SH k then .error (.txRejected "bad-txns-vout-p2sh")
        else if ¬ env.accepted k then
          .error (.internal "ProcessNewBlock, block not accepted")
        else
          generateLoop env maxSig (k + 1) rem p.2 stored1 n1
            (acc ++ [env.blockHash k p.1])
termination_by k rem budget stored n acc => (rem, budget)
decreasing_by
  · apply Prod.Lex.right
    have hle : ∀ (f : Nat → Bool) nonce b, (powLoop f nonce b).2 ≤ b := by
      intro f nonce b
      induction b generalizing nonce with
      | zero => simp [powLoop]
      | succ b ihh =>
        simp only [powLoop]
        split
        · exact Nat.le_trans (ihh (nonce + 1)) (Nat.le_succ b)
        · exact Nat.le_refl _
    have key : ∀ (f : Nat → Bool) nonce b,
        (powLoop f nonce b).1 ≠ nonce → (powLoop f nonce b).2 < b := by
      intro f nonce b
      cases b with
      | zero => simp [powLoop]
      | succ b =>
        simp only [powLoop]
        split
        · intro _
          exact Nat.lt_succ_of_le (hle f (nonce + 1) b)
        · intro h
          exact absurd rfl h
    exact key (env.powOk k) 0 budget (by rw [hn]; norm_num [nInnerLoopCount])
  · apply Prod.Lex.left
    exact Nat.lt_succ_self rem

/-- `generateBlocks`: factory check, then the mining loop.  `stored0` is
the ambient value of the function-static `hashPrevBlock` inside
`IncrementExtraNonce`; the local `nExtraNonce` starts at 0. -/
def generateBlocks (env : GenEnv) (maxSig : Nat) (nGenerate : Nat)
    (nMaxTries : Nat) (stored0 : Nat) : Except RPCError (List Nat) :=
  if ¬ env.factory then .error (.internal "No mining factory available")
  else generateLoop env maxSig 0 nGenerate nMaxTries stored0 0 []

/-! ## Network hashrate estimator (`GetNetworkHashPS`) -/

/-- Read-only view of the active chain: `chainHeight` is
`chainActive.Height()` (−1 when the chain is empty, in which case
`chainActive.Tip()` is null); `timeAt h` / `workAt h` are `GetBlockTime`
and `GetChainWork` of the block at height `h`. -/
structure ChainModel where
  chainHeight : Int
  timeAt : Int → Int
  workAt : Int → Nat

/-- `arith_uint256` subtraction: wraps modulo `2 ^ 256`. -/
def sub256 (a b : Nat) : Nat := (((a : Int) - (b : Int)) % (2 ^ 256 : Int)).toNat

/-- The min/max-timestamp walk of `GetNetworkHashPS`: step `k` times from
height `h` to the previous block, folding min and max block times.
Returns the final height and the accumulated min and max. -/
def hashPSWalk (c : ChainModel) : Nat → Int → Int → Int → Int × Int × Int
  | 0, h, minT, maxT => (h, minT, maxT)
  | k + 1, h, minT, maxT =>
    let h1 := h - 1
    let t := c.timeAt h1
    hashPSWalk c k h1 (min t minT) (max t maxT)

/-- `GetNetworkHashPS` from `src/rpc/mining.cpp`.  `interval` is
`Params().GetConsensus().DifficultyAdjustmentInterval()`.  The returned
value is computed in exact rational arithmetic (the source divides the
chainwork difference by the time difference in floating point). -/
def GetNetworkHashPS (c : ChainModel) (interval : Int) (lookup height : Int) : ℚ :=
  let pbHeight : Int :=
    if 0 ≤ height ∧ height < c.chainHeight then height else c.chainHeight
  if c.chainHeight < 0 then 0          -- pb == nullptr
  else if pbHeight = 0 then 0          -- !pb->GetHeight()
  else
    -- If lookup is -1, then use blocks since last difficulty change.
    let lookup1 := if lookup ≤ 0 then pbHeight % interval + 1 else lookup
    -- If lookup is larger than chain, then set it to chain length.
    let lookup2 := if lookup1 > pbHeight then pbHeight else lookup1
    let t0 := c.timeAt pbHeight
    let w := hashPSWalk c lookup2.toNat pbHeight t0 t0
    if w.2.1 = w.2.2 then 0
    else (sub256 (c.workAt pbHeight) (c.workAt w.1) : ℚ) /
      ((w.2.2 - w.2.1 : Int) : ℚ)

/-- Timestamps of the `k` blocks below height `h` (the blocks the min/max
walk visits), in walk order. -/
def windowTimes (c : ChainModel) (h : Int) (k : Nat) : List Int :=
  (List.range k).map (fun (i : Nat) => c.timeAt (h - 1 - (i : Int)))

/-- `GetNetworkHashPS` as the specification words it: resolve the anchor;
return 0 when the anchor is absent or at height 0; default a non-positive
lookback to `anchor_height mod difficulty_adjustment_interval + 1`; clamp
it to the anchor height; take min and max block timestamps over the
anchor and the `lookback` blocks walked back from it; return 0 when they
coincide and otherwise the chainwork difference between the anchor and
the ancestor `lookback` links back, divided by the time spread. -/
def specHashPS (c : ChainModel) (interval lookup height : Int) : ℚ :=
  let hA := if 0 ≤ height ∧ height < c.chainHeight then height else c.chainHeight
  if c.chainHeight < 0 then 0
  else if hA = 0 then 0
  else
    let lb0 := if lookup ≤ 0 then hA % interval + 1 else lookup
    let lb := if lb0 > hA then hA else lb0
    let minT := (windowTimes c hA lb.toNat).foldl min (c.timeAt hA)
    let maxT := (windowTimes c hA lb.toNat).foldl max (c.timeAt hA)
    if minT = maxT then 0
    else ((c.workAt hA - c.workAt (hA - lb) : Nat) : ℚ) /
      ((maxT - minT : Int) : ℚ)

/-! ## The `longpollid` wire format -/

/-- Hex digit character, lowercase (as `uint256::GetHex` produces). -/
def hexDigitChar (n : Nat) : Char :=
  if n < 10 then Char.ofNat (48 + n) else Char.ofNat (87 + n)

/-- Big-endian fixed-width hex encoding: `w` digits of `v`. -/
def hexEncodeAux : Nat → Nat → List Char
  | 0, _ => []
  | w + 1, v => hexEncodeAux w (v / 16) ++ [hexDigitChar (v % 16)]

/-- `uint256::GetHex`: 64 hex characters. -/
def hexEncode64 (v : Nat) : List Char := hexEncodeAux 64 v

/-- Value of one hex digit character (mirrors the `phexdigit` table used
by `SetHex`; non-hex characters map to 0). -/
def hexDigitVal (ch : Char) : Nat :=
  if 48 ≤ ch.toNat ∧ ch.toNat ≤ 57 then ch.toNat - 48
  else if 97 ≤ ch.toNat ∧ ch.toNat ≤ 102 then ch.toNat - 87
  else if 65 ≤ ch.toNat ∧ ch.toNat ≤ 70 then ch.toNat - 55
  else 0

/-- `uint256::SetHex` on a plain string of hex digits: horner fold. -/
def hexDecode (cs : List Char) : Nat :=
  cs.foldl (fun acc ch => acc * 16 + hexDigitVal ch) 0

/-- Decimal digit character. -/
def decDigitChar (n : Nat) : Char := Char.ofNat (48 + n)

/-- Decimal digits of a positive number, most significant first. -/
def decEncodeAux (n : Nat) : List Char :=
  if h : n = 0 then [] else decEncodeAux (n / 10) ++ [decDigitChar (n % 10)]
termination_by n
decreasing_by
  exact Nat.div_lt_self (Nat.pos_of_ne_zero h) (by norm_num)

/-- `i64tostr` on a non-negative value. -/
def decEncode (n : Nat) : List Char :=
  if n = 0 then ['0'] else decEncodeAux n

/-- `atoi64` on a plain string of decimal digits: horner fold. -/
def decDecode (cs : List Char) : Nat :=
  cs.foldl (fun acc ch => acc * 10 + (ch.toNat - 48)) 0

/-- The `longpollid` string `getblocktemplate` emits:
`tip->GetBlockHash().GetHex() + i64tostr(nTransactionsUpdatedLast)`. -/
def makeLongpollid (tipHash counter : Nat) : List Char :=
  hexEncode64 tipHash ++ decEncode counter

/-- Parsing a string `longpollid`:
`hashWatchedChain.SetHex(lpstr.substr(0, 64));`
`nTransactionsUpdatedLastLP = atoi64(lpstr.substr(64));`. -/
def parseLongpollid (s : List Char) : Nat × Nat :=
  (hexDecode (s.take 64), decDecode (s.drop 64))

/-- The ambient state the long-poll baseline selection reads: the current
chain-tip hash and the static `nTransactionsUpdatedLast` (the mempool
counter snapshot taken when the template cache last rebuilt).  The live
`mempool.GetTransactionsUpdated()` value is carried alongside to state
claims about it; the non-string branch of the source never reads it. -/
structure GBTContext where
  tipHash : Nat
  staticTxUpdatedLast : Nat
  liveTxUpdated : Nat
deriving DecidableEq, Repr

/-- Baseline (watched tip hash, baseline counter) the long-poll wait uses,
as selected by `getblocktemplate` from the `longpollid` parameter:
`none` when the parameter is absent (no wait happens at all). -/
def gbtLongPollBaseline (ctx : GBTContext) : LPParam → Option (Nat × Nat)
  | .null => none
  | .strVal s => some (parseLongpollid s)
  | .nonStr =>
    -- NOTE: Spec does not specify behaviour for non-string longpollid,
    -- but this makes testing easier
    some (ctx.tipHash, ctx.staticTxUpdatedLast)

/-! ## Reduction lemmas for `processBlock` -/

theorem processBlock_dup_valid (blk : BlockModel) (tx0 : TxModel)
    (rest : List TxModel) (hTx : blk.txs = tx0 :: rest)
    (hCB : tx0.isCoinBase = true) (hP2SH : tx0.hasP2SHOutput = false)
    (entry : BlockIndexInfo) (hV : entry.validScripts = true)
    (op : Bool × List (Nat × CValidationState)) :
    processBlock blk (some entry) op = (.ok (.str "duplicate"), []) := by
  unfold processBlock
  rw [hTx]
  simp [hCB, hP2SH, hV]

theorem processBlock_dup_invalid (blk : BlockModel) (tx0 : TxModel)
    (rest : List TxModel) (hTx : blk.txs = tx0 :: rest)
    (hCB : tx0.isCoinBase = true) (hP2SH : tx0.hasP2SHOutput = false)
    (entry : BlockIndexInfo) (hV : entry.validScripts = false)
    (hI : entry.invalid = true)
    (op : Bool × List (Nat × CValidationState)) :
    processBlock blk (some entry) op = (.ok (.str "duplicate-invalid"), []) := by
  unfold processBlock
  rw [hTx]
  simp [hCB, hP2SH, hV, hI]

theorem processBlock_dup_engine (blk : BlockModel) (tx0 : TxModel)
    (rest : List TxModel) (hTx : blk.txs = tx0 :: rest)
    (hCB : tx0.isCoinBase = true) (hP2SH : tx0.hasP2SHOutput = false)
    (entry : BlockIndexInfo) (hV : entry.validScripts = false)
    (hI : entry.invalid = false)
    (op : Bool × List (Nat × CValidationState)) :
    processBlock blk (some entry) op =
      (if op.1 ∧ ¬ (stateCatcherRun blk.hash op.2).1 then
        .ok (.str "duplicate-inconclusive")
       else .ok (.str "duplicate"),
       [.register, .engineCall, .unregister]) := by
  unfold processBlock
  rw [hTx]
  simp [hCB, hP2SH, hV, hI]
  split <;> rfl

theorem processBlock_new (blk : BlockModel) (tx0 : TxModel)
    (rest : List TxModel) (hTx : blk.txs = tx0 :: rest)
    (hCB : tx0.isCoinBase = true) (hP2SH : tx0.hasP2SHOutput = false)
    (op : Bool × List (Nat × CValidationState)) :
    processBlock blk none op =
      (if ¬ (stateCatcherRun blk.hash op.2).1 then .ok (.str "inconclusive")
       else BIP22ValidationResult (stateCatcherRun blk.hash op.2).2,
       [.register, .engineCall, .unregister]) := by
  unfold processBlock
  rw [hTx]
  simp [hCB, hP2SH]
  split <;> rfl

/-! ## Claim C1 — duplicate handling in `processBlock` -/

/-- C1 counterexample: a coinbase-only block (hash 9) whose header is
already in the block index but neither fully script-validated nor marked
invalid is submitted; the operation reports success and the collector
fires.  The claim says the outcome is DuplicateInconclusive, but
`processBlock` returns "duplicate" (DuplicateValid): the
"duplicate-inconclusive" answer is produced only when the collector did
NOT fire. -/
theorem C1_success_and_fired_counterexample :
    (stateCatcherRun 9 [(9, ⟨.valid, ""⟩)]).1 = true ∧
    (processBlock ⟨[⟨true, false⟩], 9⟩ (some ⟨false, false⟩)
        (true, [(9, ⟨.valid, ""⟩)])).1 = .ok (.str "duplicate") ∧
    ¬ ((processBlock ⟨[⟨true, false⟩], 9⟩ (some ⟨false, false⟩)
        (true, [(9, ⟨.valid, ""⟩)])).1 = .ok (.str "duplicate-inconclusive")) := by
  refine ⟨rfl, rfl, ?_⟩
  intro h
  rw [show (processBlock ⟨[⟨true, false⟩], 9⟩ (some ⟨false, false⟩)
      (true, [(9, ⟨.valid, ""⟩)])).1 = .ok (.str "duplicate") from rfl] at h
  simp at h

/-- C1 (amended): for a submitted block whose hash is already in the block
index: fully script-validated entries yield DuplicateValid and invalid
entries DuplicateInvalid, both without invoking the validation engine
(empty interface trace); otherwise the engine is invoked once and the
outcome is DuplicateInconclusive exactly when the operation reported
success and the collector did not fire, and DuplicateValid otherwise
(including when the operation reported success and the collector fired). -/
theorem C1_duplicate_submission_amended (blk : BlockModel)
    (entry : BlockIndexInfo) (op : Bool × List (Nat × CValidationState))
    (tx0 : TxModel) (rest : List TxModel) (hTx : blk.txs = tx0 :: rest)
    (hCB : tx0.isCoinBase = true) (hP2SH : tx0.hasP2SHOutput = false) :
    (entry.validScripts = true →
      processBlock blk (some entry) op = (.ok (.str "duplicate"), [])) ∧
    (entry.validScripts = false → entry.invalid = true →
      processBlock blk (some entry) op = (.ok (.str "duplicate-invalid"), [])) ∧
    (entry.validScripts = false → entry.invalid = false →
      processBlock blk (some entry) op =
        (if op.1 ∧ ¬ (stateCatcherRun blk.hash op.2).1 then
          .ok (.str "duplicate-inconclusive")
         else .ok (.str "duplicate"),
         [.register, .engineCall, .unregister])) := by
  refine ⟨fun hV => ?_, fun hV hI => ?_, fun hV hI => ?_⟩
  · exact processBlock_dup_valid blk tx0 rest hTx hCB hP2SH entry hV op
  · exact processBlock_dup_invalid blk tx0 rest hTx hCB hP2SH entry hV hI op
  · exact processBlock_dup_engine blk tx0 rest hTx hCB hP2SH entry hV hI op

/-- Witness for C1: the amended theorem applied to a concrete block
(hash 9, single coinbase transaction) with a header-only index entry and
an operation that succeeds while the collector fires. -/
theorem C1_duplicate_submission_amended_witness :
    ((⟨false, false⟩ : BlockIndexInfo).validScripts = true →
      processBlock ⟨[⟨true, false⟩], 9⟩ (some ⟨false, false⟩)
          (true, [(9, ⟨.valid, ""⟩)]) = (.ok (.str "duplicate"), [])) ∧
    ((⟨false, false⟩ : BlockIndexInfo).validScripts = false →
      (⟨false, false⟩ : BlockIndexInfo).invalid = true →
      processBlock ⟨[⟨true, false⟩], 9⟩ (some ⟨false, false⟩)
          (true, [(9, ⟨.valid, ""⟩)]) = (.ok (.str "duplicate-invalid"), [])) ∧
    ((⟨false, false⟩ : BlockIndexInfo).validScripts = false →
      (⟨false, false⟩ : BlockIndexInfo).invalid = false →
      processBlock ⟨[⟨true, false⟩], 9⟩ (some ⟨false, false⟩)
          (true, [(9, ⟨.valid, ""⟩)]) =
        (if (true, [((9 : Nat), (⟨.valid, ""⟩ : CValidationState))]).1 ∧
            ¬ (stateCatcherRun (⟨[⟨true, false⟩], 9⟩ : BlockModel).hash
                (true, [((9 : Nat), (⟨.valid, ""⟩ : CValidationState))]).2).1 then
          .ok (.str "duplicate-inconclusive")
         else .ok (.str "duplicate"),
         [.register, .engineCall, .unregister])) :=
  C1_duplicate_submission_amended ⟨[⟨true, false⟩], 9⟩ ⟨false, false⟩
    (true, [(9, ⟨.valid, ""⟩)]) ⟨true, false⟩ [] rfl rfl rfl

/-! ## Claim C4 — collector registration pairing -/

/-- C4: on every path through `processBlock`, either no collector is ever
registered (early-return paths: malformed block, P2SH coinbase, already
script-validated or invalid duplicates), or the trace is exactly one
registration, one synchronous engine call, and one unregistration, in
that order — no collector remains attached after the call returns. -/
theorem C4_collector_registration_paired (blk : BlockModel)
    (entry : Option BlockIndexInfo)
    (op : Bool × List (Nat × CValidationState)) :
    (processBlock blk entry op).2 = [] ∨
      (processBlock blk entry op).2 =
        [.register, .engineCall, .unregister] := by
  unfold processBlock
  rcases blk.txs with _ | ⟨tx0, rest⟩
  · left; rfl
  · simp only
    split
    · left; rfl
    · split
      · left; rfl
      · rcases entry with _ | e
        · right
          simp [apply_ite Prod.snd]
        · simp only
          by_cases hV : e.validScripts
          · left; simp [hV]
          · by_cases hI : e.invalid
            · left; simp [hV, hI]
            · right
              simp [hV, hI, apply_ite Prod.snd]

/-! ## Claim C6 — classification of new-block submissions -/

/-- C6: for a block not present in the block index, `processBlock`
classifies the outcome from the collector: never fired → "inconclusive";
fired valid → null result; fired invalid with non-empty reason → that
reason; fired invalid with empty reason → "rejected"; fired with an
engine-internal error state → a thrown RPC_VERIFY_ERROR carrying the
reason. -/
theorem C6_new_block_classification (blk : BlockModel)
    (op : Bool × List (Nat × CValidationState)) (tx0 : TxModel)
    (rest : List TxModel) (hTx : blk.txs = tx0 :: rest)
    (hCB : tx0.isCoinBase = true) (hP2SH : tx0.hasP2SHOutput = false) :
    ((stateCatcherRun blk.hash op.2).1 = false →
      (processBlock blk none op).1 = .ok (.str "inconclusive")) ∧
    ((stateCatcherRun blk.hash op.2).1 = true →
      (stateCatcherRun blk.hash op.2).2.mode = .valid →
      (processBlock blk none op).1 = .ok .nullValue) ∧
    ((stateCatcherRun blk.hash op.2).1 = true →
      (stateCatcherRun blk.hash op.2).2.mode = .invalid →
      (stateCatcherRun blk.hash op.2).2.rejectReason ≠ "" →
      (processBlock blk none op).1 =
        .ok (.str (stateCatcherRun blk.hash op.2).2.rejectReason)) ∧
    ((stateCatcherRun blk.hash op.2).1 = true →
      (stateCatcherRun blk.hash op.2).2.mode = .invalid →
      (stateCatcherRun blk.hash op.2).2.rejectReason = "" →
      (processBlock blk none op).1 = .ok (.str "rejected")) ∧
    ((stateCatcherRun blk.hash op.2).1 = true →
      (stateCatcherRun blk.hash op.2).2.mode = .error →
      (processBlock blk none op).1 =
        .error (.verifyError (stateCatcherRun blk.hash op.2).2.rejectReason)) := by
  have hrun := processBlock_new blk tx0 rest hTx hCB hP2SH op
  refine ⟨fun hF => ?_, fun hF hM => ?_, fun hF hM hR => ?_,
    fun hF hM hR => ?_, fun hF hM => ?_⟩
  · rw [hrun]; simp [hF]
  · rw [hrun]
    simp [hF, BIP22ValidationResult, CValidationState.IsValid, hM]
  · rw [hrun]
    simp [hF, BIP22ValidationResult, CValidationState.IsValid,
      CValidationState.IsError, CValidationState.IsInvalid, hM, hR]
  · rw [hrun]
    simp [hF, BIP22ValidationResult, CValidationState.IsValid,
      CValidationState.IsError, CValidationState.IsInvalid, hM, hR]
  · rw [hrun]
    simp [hF, BIP22ValidationResult, CValidationState.IsValid,
      CValidationState.IsError, hM]

/-- Witness for C6: a concrete new block (hash 9) submitted with an
engine that defers — the collector never fires and the result is
"inconclusive". -/
theorem C6_new_block_classification_witness :
    (stateCatcherRun (9 : Nat) ([] : List (Nat × CValidationState))).1 = false ∧
    (processBlock ⟨[⟨true, false⟩], 9⟩ none (true, [])).1 =
      .ok (.str "inconclusive") :=
  ⟨rfl, (C6_new_block_classification ⟨[⟨true, false⟩], 9⟩ (true, [])
    ⟨true, false⟩ [] rfl rfl rfl).1 rfl⟩

/-! ## Claim C2 — template cache staleness policy -/

/-- C2: a `getblocktemplate` template-mode step rebuilds the cached
template exactly when the staleness predicate holds (tip changed, or the
mempool counter changed and either more than 5 time-units elapsed since
the last build or the snapshot counter is below the frozen-transactions
watermark); the cached tip identity is cleared before the rebuild attempt,
so a failing build (no factory / assembler returned nothing) leaves the
cache unbuilt; a non-stale step leaves the state untouched.  Since the
cache state is universally quantified, this covers every call in every
sequence of calls. -/
theorem C2_template_cache_rebuild_iff_stale (s : TemplateCacheState)
    (e : TemplateEnv) :
    ((getblocktemplateUpdateBlock s e).2.1 = true ↔ templateStaleSpec s e) ∧
    ((getblocktemplateUpdateBlock s e).2.2.isSome = true →
      (getblocktemplateUpdateBlock s e).1.pindexPrev = none) ∧
    (¬ templateStaleSpec s e →
      getblocktemplateUpdateBlock s e = (s, false, none)) := by
  unfold getblocktemplateUpdateBlock
  split
  next h =>
    have hst : templateStaleSpec s e := h
    refine ⟨⟨fun _ => hst, fun _ => ?_⟩, ?_, fun hns => absurd hst hns⟩
    · split
      · rfl
      · split <;> rfl
    · split
      · intro _; rfl
      · split
        · intro _; rfl
        · intro hS; exact absurd hS (by simp)
  next h =>
    have hst : ¬ templateStaleSpec s e := h
    exact ⟨by simp [hst], by simp, fun _ => rfl⟩

/-! ## Claim C8 — long-poll wait loop -/

theorem longPollLoop_outcome (watched base : Nat) :
    ∀ (rounds : List PollRound) (d : Int),
      (longPollLoop watched base d rounds).1 =
        specWaitOutcome watched base rounds := by
  intro rounds
  induction rounds with
  | nil => intro d; rfl
  | cons r rest ih =>
    intro d
    simp only [longPollLoop, specWaitOutcome]
    by_cases hc : r.tip = watched ∧ r.running = true
    · rw [if_pos hc, if_pos hc]
      by_cases hs : r.signaled
      · simp [hs, ih]
      · by_cases hm : r.mempool = base
        · simp [hs, hm, ih]
        · simp [hs, hm, pollExitOutcome, hc.2]
    · rw [if_neg hc, if_neg hc]
      simp [pollExitOutcome]

theorem longPollLoop_deadlines (watched base : Nat) :
    ∀ (rounds : List PollRound) (k : Nat),
      (longPollLoop watched base (60 + 10 * (k : Int)) rounds).2 =
        specDeadlines watched base k rounds := by
  intro rounds
  induction rounds with
  | nil => intro k; rfl
  | cons r rest ih =>
    intro k
    simp only [longPollLoop, specDeadlines]
    by_cases hc : r.tip = watched ∧ r.running = true
    · rw [if_pos hc, if_pos hc]
      by_cases hs : r.signaled
      · simp [hs, ih k]
      · by_cases hm : r.mempool = base
        · simp [hs, hm]
          rw [show (60 : Int) + 10 * (k : Int) + 10 =
              60 + 10 * ((k + 1 : Nat) : Int) by push_cast; ring]
          exact ih (k + 1)
        · simp [hs, hm]
    · rw [if_neg hc, if_neg hc]

/-- C8: the long-poll wait refines its specification.  The outcome agrees
with the spec-side description (sleep while the tip equals the baseline;
on a timeout compare the mempool counter to the baseline and return when
they differ; whenever a wake observes the running flag false, fail with
"Shutting down"), and the `timed_wait` deadlines are exactly 60 time-units
for the first wait and 10 more for each subsequent timeout. -/
theorem C8_longpoll_wait_refines_spec (watched base : Nat)
    (rounds : List PollRound) :
    (longPollWait watched base rounds).1 =
      specWaitOutcome watched base rounds ∧
    (longPollWait watched base rounds).2 =
      specDeadlines watched base 0 rounds := by
  constructor
  · exact longPollLoop_outcome watched base rounds 60
  · have h := longPollLoop_deadlines watched base rounds 0
    simpa using h

/-! ## Claim C10 — non-string `longpollid` -/

/-- C10 counterexample: with the static template-cache snapshot at 3 and
the live mempool counter at 7, a non-string `longpollid` makes the wait
baseline `(tip, 3)` — the static snapshot, not the live counter 7 the
claim names — and the wait then returns at the very first 60-unit timeout
even though the tip and the live mempool counter never changed. -/
theorem C10_nonstring_longpollid_counterexample :
    gbtLongPollBaseline ⟨5, 3, 7⟩ .nonStr = some (5, 3) ∧
    ¬ (gbtLongPollBaseline ⟨5, 3, 7⟩ .nonStr =
        some (5, (⟨5, 3, 7⟩ : GBTContext).liveTxUpdated)) ∧
    (longPollWait 5 3 [⟨5, true, false, 7⟩]).1 = .returned := by
  refine ⟨rfl, ?_, rfl⟩
  intro h
  simp [gbtLongPollBaseline, GBTContext.liveTxUpdated] at h

/-- C10 (amended): a present but non-string `longpollid` does not fail
with an invalid-parameter error; the wait baseline is the current
chain-tip hash together with the static `nTransactionsUpdatedLast`
snapshot (the counter recorded when the template cache last rebuilt), and
the wait then follows the ordinary long-poll behaviour against that
baseline. -/
theorem C10_nonstring_longpollid_amended (ctx : GBTContext)
    (rounds : List PollRound) :
    gbtLongPollBaseline ctx .nonStr =
      some (ctx.tipHash, ctx.staticTxUpdatedLast) ∧
    (longPollWait ctx.tipHash ctx.staticTxUpdatedLast rounds).1 =
      specWaitOutcome ctx.tipHash ctx.staticTxUpdatedLast rounds :=
  ⟨rfl, longPollLoop_outcome ctx.tipHash ctx.staticTxUpdatedLast rounds 60⟩

/-! ## Serialization-size bounds for the coinbase scriptSig -/

theorem byteLen_le (k : Nat) : ∀ v, v < 256 ^ k → byteLen v ≤ k := by
  induction k with
  | zero =>
    intro v hv
    have hv0 : v = 0 := by simpa using Nat.lt_one_iff.mp (by simpa using hv)
    subst hv0
    simp [byteLen]
  | succ k ih =>
    intro v hv
    by_cases h0 : v = 0
    · simp [byteLen, h0]
    · rw [byteLen, dif_neg h0]
      have hdiv : v / 256 < 256 ^ k := by
        rw [Nat.div_lt_iff_lt_mul (by norm_num : 0 < 256)]
        calc v < 256 ^ (k + 1) := hv
        _ = 256 ^ k * 256 := by ring
      exact Nat.succ_le_succ (ih (v / 256) hdiv)

theorem scriptNumEncodingLen_le (v : Nat) (hv : v < 2 ^ 32) :
    scriptNumEncodingLen v ≤ 5 := by
  unfold scriptNumEncodingLen
  by_cases h0 : v = 0
  · simp [h0]
  · rw [if_neg h0]
    have hb : byteLen v ≤ 4 := byteLen_le 4 v (by norm_num at hv ⊢; omega)
    split <;> omega

theorem pushDataLen_le (len : Nat) (h : len ≤ 5) : pushDataLen len ≤ 6 := by
  unfold pushDataLen
  rw [if_pos (by omega)]
  omega

theorem pushInt64Len_le (v : Nat) (hv : v < 2 ^ 32) : pushInt64Len v ≤ 6 := by
  unfold pushInt64Len
  by_cases h1 : 1 ≤ v ∧ v ≤ 16
  · rw [if_pos h1]; omega
  · rw [if_neg h1]
    by_cases h0 : v = 0
    · rw [if_pos h0]; omega
    · rw [if_neg h0]
      exact pushDataLen_le _ (scriptNumEncodingLen_le v hv)

/-- With height and extra nonce both reduced modulo `2 ^ 32`, the coinbase
scriptSig is at most 12 bytes plus the flags, so the `assert` in
`IncrementExtraNonce` cannot fire when the flags leave at least 12 bytes
of headroom below the maximum. -/
theorem IncrementExtraNonce_eq (merkleOf : CoinbaseSig → Nat)
    (flags : List Nat) (maxSig prevHeight : Nat) (blk : CBlockModel)
    (stored n : Nat) (hmax : 12 + flags.length ≤ maxSig) :
    IncrementExtraNonce merkleOf flags maxSig prevHeight blk stored n =
      some (⟨blk.hashPrevBlock,
              ⟨(prevHeight + 1) % 2 ^ 32,
               (extraNonceNext blk.hashPrevBlock stored n).2, flags⟩,
              merkleOf
                ⟨(prevHeight + 1) % 2 ^ 32,
                 (extraNonceNext blk.hashPrevBlock stored n).2, flags⟩⟩,
            (extraNonceNext blk.hashPrevBlock stored n).1,
            (extraNonceNext blk.hashPrevBlock stored n).2) := by
  unfold IncrementExtraNonce extraNonceNext
  simp only
  rw [if_pos]
  have h1 : pushInt64Len ((prevHeight + 1) % 2 ^ 32) ≤ 6 :=
    pushInt64Len_le _ (Nat.mod_lt _ (by norm_num))
  have h2 : pushDataLen (scriptNumEncodingLen
      (((if stored ≠ blk.hashPrevBlock then (blk.hashPrevBlock, 0)
         else (stored, n)).2 + 1) % 2 ^ 32)) ≤ 6 :=
    pushDataLen_le _ (scriptNumEncodingLen_le _ (Nat.mod_lt _ (by norm_num)))
  unfold CoinbaseSig.size
  simp only
  omega

/-! ## Inner-loop accounting lemmas (`generateBlocks`) -/

theorem powLoop_budget_le (powOk : Nat → Bool) :
    ∀ nonce b, (powLoop powOk nonce b).2 ≤ b := by
  intro nonce b
  induction b generalizing nonce with
  | zero => simp [powLoop]
  | succ b ih =>
    simp only [powLoop]
    split
    · exact Nat.le_trans (ih (nonce + 1)) (Nat.le_succ b)
    · exact Nat.le_refl _

theorem powLoop_budget_lt (powOk : Nat → Bool) :
    ∀ nonce b, (powLoop powOk nonce b).1 ≠ nonce →
      (powLoop powOk nonce b).2 < b := by
  intro nonce b
  cases b with
  | zero => simp [powLoop]
  | succ b =>
    simp only [powLoop]
    split
    · intro _
      exact Nat.lt_succ_of_le (powLoop_budget_le powOk (nonce + 1) b)
    · intro h
      exact absurd rfl h

theorem powLoop_budget_plus_failed (powOk : Nat → Bool) :
    ∀ nonce b, (powLoop powOk nonce b).2 + powLoopFailedTests powOk nonce b = b := by
  intro nonce b
  induction b generalizing nonce with
  | zero => simp [powLoop, powLoopFailedTests]
  | succ b ih =>
    simp only [powLoop, powLoopFailedTests]
    by_cases h1 : nonce < nInnerLoopCount
    · by_cases h2 : powOk nonce = true
      · rw [if_neg (by simp [h2]), if_pos h1, if_pos h2]
      · rw [if_pos ⟨h1, by simp [h2]⟩, if_pos h1, if_neg h2]
        have h3 := ih (nonce + 1)
        omega
    · rw [if_neg (by simp [h1]), if_neg h1]

theorem powLoop_nonce_le (powOk : Nat → Bool) :
    ∀ nonce b, nonce ≤ nInnerLoopCount →
      (powLoop powOk nonce b).1 ≤ nInnerLoopCount := by
  intro nonce b
  induction b generalizing nonce with
  | zero => intro h; simpa [powLoop] using h
  | succ b ih =>
    intro h
    simp only [powLoop]
    split
    next hc => exact ih (nonce + 1) hc.1
    next => simpa using h

theorem powLoop_exhaust (powOk : Nat → Bool) :
    ∀ nonce b, nonce ≤ nInnerLoopCount → (powLoop powOk nonce b).2 ≠ 0 →
      (powLoop powOk nonce b).1 = nInnerLoopCount ∨
        powOk (powLoop powOk nonce b).1 = true := by
  intro nonce b
  induction b generalizing nonce with
  | zero => intro h hb; simp [powLoop] at hb
  | succ b ih =>
    intro h hb
    simp only [powLoop] at hb ⊢
    by_cases hc : nonce < nInnerLoopCount ∧ ¬ powOk nonce = true
    · rw [if_pos hc] at hb ⊢
      exact ih (nonce + 1) hc.1 hb
    · rw [if_neg hc] at hb ⊢
      rcases Decidable.not_and_iff_or_not.mp hc with hn | hp
      · left; simp only; omega
      · right; simpa using hp

/-- If the inner loop exhausted the attempt budget, the whole operation
stops and returns the hashes accepted so far. -/
theorem generateLoop_budget_exhausted (env : GenEnv)
    (maxSig k rem budget stored n : Nat) (acc : List Nat)
    (hT : (env.template k).isSome = true)
    (hmax : 12 + env.flags.length ≤ maxSig)
    (hb : (powLoop (env.powOk k) 0 budget).2 = 0) :
    generateLoop env maxSig k (rem + 1) budget stored n acc = .ok acc := by
  rcases Option.isSome_iff_exists.mp hT with ⟨blk, hblk⟩
  rw [generateLoop, hblk]
  dsimp only
  rw [IncrementExtraNonce_eq (env.merkleOf k) env.flags maxSig
    (env.prevHeight k) blk stored n hmax]
  dsimp only
  rw [dif_pos hb]

/-- If the proof-of-work check never succeeds, no block is ever accepted:
the loop burns through the budget (possibly across several nonce-space
exhaustions) and returns the accumulator unchanged, raising no error. -/
theorem generateLoop_no_pow (env : GenEnv) (maxSig : Nat)
    (hT : ∀ k, (env.template k).isSome = true)
    (hmax : 12 + env.flags.length ≤ maxSig)
    (hpow : ∀ k m, env.powOk k m = false) :
    ∀ budget k rem stored n acc,
      generateLoop env maxSig k rem budget stored n acc = .ok acc := by
  intro budget
  induction budget using Nat.strong_induction_on with
  | _ budget ih =>
    intro k rem stored n acc
    cases rem with
    | zero => rw [generateLoop]
    | succ rem =>
      rcases Option.isSome_iff_exists.mp (hT k) with ⟨blk, hblk⟩
      rw [generateLoop, hblk]
      dsimp only
      rw [IncrementExtraNonce_eq (env.merkleOf k) env.flags maxSig
        (env.prevHeight k) blk stored n hmax]
      dsimp only
      by_cases hb : (powLoop (env.powOk k) 0 budget).2 = 0
      · rw [dif_pos hb]
      · rw [dif_neg hb]
        have hn : (powLoop (env.powOk k) 0 budget).1 = nInnerLoopCount := by
          rcases powLoop_exhaust (env.powOk k) 0 budget
              (by norm_num [nInnerLoopCount]) hb with h | h
          · exact h
          · rw [hpow] at h; exact absurd h (by simp)
        rw [dif_pos hn]
        exact ih _ (powLoop_budget_lt (env.powOk k) 0 budget
          (by rw [hn]; norm_num [nInnerLoopCount])) (k + 1) (rem + 1) _ _ acc

theorem generateBlocks_zero_budget (env : GenEnv)
    (maxSig nGenerate stored0 : Nat) (hF : env.factory = true)
    (hT : (env.template 0).isSome = true)
    (hmax : 12 + env.flags.length ≤ maxSig) :
    generateBlocks env maxSig nGenerate 0 stored0 = .ok [] := by
  unfold generateBlocks
  rw [if_neg (by simp [hF])]
  cases nGenerate with
  | zero => rw [generateLoop]
  | succ m =>
    exact generateLoop_budget_exhausted env maxSig 0 m 0 stored0 0 [] hT hmax rfl

/-! ## Claim C3 — attempt budget of the proof-of-work search -/

/-- C3 counterexample: with a target that nonce 0 already satisfies and a
budget of 5, the inner loop performs exactly one proof-of-work test yet
decrements the budget zero times (it stays 5): the budget is decremented
only on failed tests, not "on every proof-of-work test performed" as the
claim states. -/
theorem C3_decrement_on_every_test_counterexample :
    powLoopTests (fun _ => true) 0 5 = 1 ∧
    (powLoop (fun _ => true) 0 5).2 = 5 ∧
    ¬ (5 - (powLoop (fun _ => true) 0 5).2 =
        powLoopTests (fun _ => true) 0 5) := by
  decide

/-- C3 (amended): in the inner nonce-search loop the attempt budget is
decremented exactly on every failed proof-of-work test (a successful test
consumes no attempt); the search never drives the nonce past the fixed
bound `2 ^ 20`; when the budget is exhausted mid-inner-loop the whole
operation stops and returns the hashes accepted so far; `generateBlocks`
with a zero budget returns an empty hash list; and with a target no
attempt can satisfy it returns an empty list — fewer hashes than
`block_count` — without raising an error. -/
theorem C3_attempt_budget_amended :
    (∀ (powOk : Nat → Bool) (nonce b : Nat),
      (powLoop powOk nonce b).2 + powLoopFailedTests powOk nonce b = b) ∧
    (∀ (powOk : Nat → Bool) (b : Nat),
      (powLoop powOk 0 b).1 ≤ nInnerLoopCount) ∧
    (∀ (env : GenEnv) (maxSig k rem budget stored n : Nat) (acc : List Nat),
      (env.template k).isSome = true → 12 + env.flags.length ≤ maxSig →
      (powLoop (env.powOk k) 0 budget).2 = 0 →
      generateLoop env maxSig k (rem + 1) budget stored n acc = .ok acc) ∧
    (∀ (env : GenEnv) (maxSig nGenerate stored0 : Nat),
      env.factory = true → (env.template 0).isSome = true →
      12 + env.flags.length ≤ maxSig →
      generateBlocks env maxSig nGenerate 0 stored0 = .ok []) ∧
    (∀ (env : GenEnv) (maxSig nGenerate budget stored0 : Nat),
      env.factory = true → (∀ k, (env.template k).isSome = true) →
      12 + env.flags.length ≤ maxSig → (∀ k m, env.powOk k m = false) →
      0 < nGenerate →
      generateBlocks env maxSig nGenerate budget stored0 = .ok [] ∧
        ([] : List Nat).length < nGenerate) := by
  refine ⟨powLoop_budget_plus_failed,
    fun powOk b => powLoop_nonce_le powOk 0 b (by norm_num [nInnerLoopCount]),
    fun env maxSig k rem budget stored n acc hT hmax hb =>
      generateLoop_budget_exhausted env maxSig k rem budget stored n acc hT hmax hb,
    fun env maxSig nGenerate stored0 hF hT hmax =>
      generateBlocks_zero_budget env maxSig nGenerate stored0 hF hT hmax,
    fun env maxSig nGenerate budget stored0 hF hT hmax hpow hn => ⟨?_, by simpa using hn⟩⟩
  unfold generateBlocks
  rw [if_neg (by simp [hF])]
  exact generateLoop_no_pow env maxSig hT hmax hpow budget 0 nGenerate stored0 0 []

/-! ## Claim C5 — extra-nonce counter and coinbase scriptSig -/

/-- C5 counterexample: `nExtraNonce` is a C++ `unsigned int`.  With an
unchanged previous-block hash and the counter at `2 ^ 32 - 1`,
`++nExtraNonce` wraps to 0 — not to `2 ^ 32 - 1 + 1` — so "strictly
increases by exactly 1 on each call" fails at this (reachable) state;
a `generatetoaddress` call with an enormous `maxtries` and an
unsatisfiable target performs one `IncrementExtraNonce` per nonce-space
exhaustion and can drive the counter this far. -/
theorem C5_extranonce_wrap_counterexample :
    IncrementExtraNonce (fun _ => 0) [] 100 0 ⟨5, ⟨0, 0, []⟩, 0⟩ 5 (2 ^ 32 - 1) =
      some (⟨5, ⟨1, 0, []⟩, 0⟩, 5, 0) ∧
    ¬ ((0 : Nat) = (2 ^ 32 - 1) + 1) := by
  constructor
  · rw [IncrementExtraNonce_eq (fun _ => 0) [] 100 0 ⟨5, ⟨0, 0, []⟩, 0⟩ 5
      (2 ^ 32 - 1) (by norm_num)]
    norm_num [extraNonceNext]
  · norm_num

/-- C5 (amended): between consecutive `IncrementExtraNonce` calls the
counter is reset to 1 when the block's previous-block hash differs from
the stored one, and otherwise advances by exactly 1 modulo `2 ^ 32`
(`unsigned int` arithmetic: it wraps to 0 from `2 ^ 32 - 1`); whenever the
fixed flags leave 12 bytes of headroom below the maximum, the call
succeeds (the size `assert` cannot fire), the resulting coinbase scriptSig
never exceeds that maximum, and the block's merkle root is recomputed over
the transaction set carrying the updated coinbase scriptSig. -/
theorem C5_extranonce_invariants_amended (merkleOf : CoinbaseSig → Nat)
    (flags : List Nat) (maxSig prevHeight : Nat) (blk : CBlockModel)
    (stored n : Nat) (hmax : 12 + flags.length ≤ maxSig) :
    ∃ blk' stored' n',
      IncrementExtraNonce merkleOf flags maxSig prevHeight blk stored n =
        some (blk', stored', n') ∧
      (stored ≠ blk.hashPrevBlock → stored' = blk.hashPrevBlock ∧ n' = 1) ∧
      (stored = blk.hashPrevBlock → stored' = stored ∧ n' = (n + 1) % 2 ^ 32) ∧
      blk'.coinbaseSig.size ≤ maxSig ∧
      blk'.coinbaseSig.extraNonce = n' ∧
      blk'.hashMerkleRoot = merkleOf blk'.coinbaseSig := by
  refine ⟨_, _, _,
    IncrementExtraNonce_eq merkleOf flags maxSig prevHeight blk stored n hmax,
    ?_, ?_, ?_, rfl, rfl⟩
  · intro hne
    constructor
    · simp [extraNonceNext, hne]
    · simp only [extraNonceNext, if_pos hne]
      exact Nat.mod_eq_of_lt (by norm_num)
  · intro heq
    constructor
    · simp [extraNonceNext, heq]
    · simp [extraNonceNext, heq]
  · have h1 : pushInt64Len ((prevHeight + 1) % 2 ^ 32) ≤ 6 :=
      pushInt64Len_le _ (Nat.mod_lt _ (by norm_num))
    have h2 : pushDataLen (scriptNumEncodingLen
        (extraNonceNext blk.hashPrevBlock stored n).2) ≤ 6 := by
      apply pushDataLen_le
      apply scriptNumEncodingLen_le
      unfold extraNonceNext
      exact Nat.mod_lt _ (by norm_num)
    unfold CoinbaseSig.size
    simp only
    omega

/-- Witness for C5: with empty flags, maximum 100, anchor height 4, an
unchanged stored hash 5 and counter 7, the amended theorem applies. -/
theorem C5_extranonce_invariants_amended_witness :
    12 + ([] : List Nat).length ≤ 100 ∧
    (∃ blk' stored' n',
      IncrementExtraNonce (fun _ => 0) [] 100 4 ⟨5, ⟨0, 0, []⟩, 0⟩ 5 7 =
        some (blk', stored', n') ∧
      ((5 : Nat) ≠ (⟨5, ⟨0, 0, []⟩, 0⟩ : CBlockModel).hashPrevBlock →
        stored' = (⟨5, ⟨0, 0, []⟩, 0⟩ : CBlockModel).hashPrevBlock ∧ n' = 1) ∧
      ((5 : Nat) = (⟨5, ⟨0, 0, []⟩, 0⟩ : CBlockModel).hashPrevBlock →
        stored' = 5 ∧ n' = (7 + 1) % 2 ^ 32) ∧
      blk'.coinbaseSig.size ≤ 100 ∧
      blk'.coinbaseSig.extraNonce = n' ∧
      blk'.hashMerkleRoot = (fun _ => (0 : Nat)) blk'.coinbaseSig) :=
  ⟨by norm_num,
   C5_extranonce_invariants_amended (fun _ => 0) [] 100 4 ⟨5, ⟨0, 0, []⟩, 0⟩ 5 7
     (by norm_num)⟩

/-! ## Claim C7 — network hashrate estimator -/

theorem hashPSWalk_height (c : ChainModel) :
    ∀ (k : Nat) (h a b : Int), (hashPSWalk c k h a b).1 = h - k := by
  intro k
  induction k with
  | zero => intro h a b; simp [hashPSWalk]
  | succ k ih =>
    intro h a b
    simp only [hashPSWalk]
    rw [ih]
    push_cast
    ring

theorem windowTimes_succ (c : ChainModel) (h : Int) (k : Nat) :
    windowTimes c h (k + 1) = c.timeAt (h - 1) :: windowTimes c (h - 1) k := by
  unfold windowTimes
  rw [List.range_succ_eq_map, List.map_cons, List.map_map]
  congr 1
  · norm_num
  · congr 1
    funext i
    simp only [Function.comp_apply]
    congr 1
    push_cast
    ring

theorem hashPSWalk_minmax (c : ChainModel) :
    ∀ (k : Nat) (h a b : Int),
      (hashPSWalk c k h a b).2.1 = (windowTimes c h k).foldl min a ∧
      (hashPSWalk c k h a b).2.2 = (windowTimes c h k).foldl max b := by
  intro k
  induction k with
  | zero => intro h a b; simp [hashPSWalk, windowTimes]
  | succ k ih =>
    intro h a b
    rw [windowTimes_succ]
    simp only [hashPSWalk, List.foldl_cons]
    constructor
    · rw [(ih (h - 1) _ _).1, min_comm]
    · rw [(ih (h - 1) _ _).2, max_comm]

theorem sub256_eq (a b : Nat) (hle : b ≤ a) (hb : a < 2 ^ 256) :
    sub256 a b = a - b := by
  unfold sub256
  rw [Int.emod_eq_of_lt (by omega) (by push_cast; omega)]
  omega

/-- C7: `GetNetworkHashPS` agrees with its specification — 0 for an
absent anchor or height 0, lookback defaulted from the difficulty
adjustment interval and clamped to the anchor height, 0 when the min and
max timestamps over the walked window coincide, and otherwise the
chainwork difference to the ancestor `lookback` links back divided by the
time spread.  Chainwork is monotone along the chain and below `2 ^ 256`
(it is a `uint256` accumulating per-block work), which makes the wrapping
`arith_uint256` subtraction the plain difference. -/
theorem C7_network_hashrate_estimate (c : ChainModel)
    (interval lookup height : Int) (hInt : 0 < interval)
    (hMono : ∀ i j : Int, i ≤ j → c.workAt i ≤ c.workAt j)
    (hBound : ∀ j : Int, c.workAt j < 2 ^ 256) :
    GetNetworkHashPS c interval lookup height =
      specHashPS c interval lookup height := by
  unfold GetNetworkHashPS specHashPS
  dsimp only
  by_cases hnull : c.chainHeight < 0
  · rw [if_pos hnull, if_pos hnull]
  · rw [if_neg hnull, if_neg hnull]
    set hA := (if 0 ≤ height ∧ height < c.chainHeight then height
      else c.chainHeight) with hhA
    by_cases h0 : hA = 0
    · rw [if_pos h0, if_pos h0]
    · rw [if_neg h0, if_neg h0]
      have hAnn : 0 ≤ hA := by
        rw [hhA]
        split
        · next hcond => exact hcond.1
        · omega
      set lb0 := (if lookup ≤ 0 then hA % interval + 1 else lookup) with hlb0
      have hlb0nn : 0 ≤ lb0 := by
        rw [hlb0]
        split
        · have hm := Int.emod_nonneg hA (ne_of_gt hInt)
          omega
        · next hlk => omega
      set lb := (if lb0 > hA then hA else lb0) with hlb
      have hlbnn : 0 ≤ lb := by
        rw [hlb]
        split <;> omega
      have hw := hashPSWalk_minmax c lb.toNat hA (c.timeAt hA) (c.timeAt hA)
      have hw1 : (hashPSWalk c lb.toNat hA (c.timeAt hA) (c.timeAt hA)).1 =
          hA - lb := by
        rw [hashPSWalk_height, Int.toNat_of_nonneg hlbnn]
      rw [hw.1, hw.2, hw1,
        sub256_eq (c.workAt hA) (c.workAt (hA - lb))
          (hMono _ _ (by omega)) (hBound _)]

/-- Witness for C7: a three-block chain (heights 0..2) with pairwise
distinct timestamps and bounded monotone chainwork. -/
theorem C7_network_hashrate_estimate_witness :
    GetNetworkHashPS ⟨2, fun h => h, fun h => min h.toNat 1000 * 10⟩ 2016 2 (-1) =
      specHashPS ⟨2, fun h => h, fun h => min h.toNat 1000 * 10⟩ 2016 2 (-1) :=
  C7_network_hashrate_estimate ⟨2, fun h => h, fun h => min h.toNat 1000 * 10⟩
    2016 2 (-1) (by norm_num)
    (fun i j hij => Nat.mul_le_mul_right _
      (min_le_min (Int.toNat_le_toNat hij) (Nat.le_refl 1000)))
    (fun j => by
      have hm : min j.toNat 1000 ≤ 1000 := Nat.min_le_right _ _
      calc min j.toNat 1000 * 10 ≤ 1000 * 10 := Nat.mul_le_mul_right _ hm
      _ < 2 ^ 256 := by norm_num)

/-! ## Claim C9 — `longpollid` round-trip -/

theorem hexEncodeAux_length : ∀ w v, (hexEncodeAux w v).length = w := by
  intro w
  induction w with
  | zero => intro v; rfl
  | succ w ih => intro v; simp [hexEncodeAux, ih]

theorem hexDigit_roundtrip : ∀ d, d < 16 → hexDigitVal (hexDigitChar d) = d := by
  decide

theorem hexEncodeAux_foldl :
    ∀ (w v a : Nat), v < 16 ^ w →
      (hexEncodeAux w v).foldl (fun acc ch => acc * 16 + hexDigitVal ch) a =
        a * 16 ^ w + v := by
  intro w
  induction w with
  | zero =>
    intro v a hv
    rw [pow_zero] at hv
    have hv0 : v = 0 := by omega
    subst hv0
    simp [hexEncodeAux]
  | succ w ih =>
    intro v a hv
    simp only [hexEncodeAux]
    rw [List.foldl_append]
    simp only [List.foldl_cons, List.foldl_nil]
    have hdiv : v / 16 < 16 ^ w := by
      rw [Nat.div_lt_iff_lt_mul (by norm_num : 0 < 16)]
      calc v < 16 ^ (w + 1) := hv
      _ = 16 ^ w * 16 := by ring
    rw [ih (v / 16) a hdiv,
      hexDigit_roundtrip (v % 16) (Nat.mod_lt _ (by norm_num)), pow_succ]
    calc (a * 16 ^ w + v / 16) * 16 + v % 16
        = a * (16 ^ w * 16) + (16 * (v / 16) + v % 16) := by ring
    _ = a * (16 ^ w * 16) + v := by rw [Nat.div_add_mod]

theorem hexDecode_hexEncode64 (v : Nat) (hv : v < 2 ^ 256) :
    hexDecode (hexEncode64 v) = v := by
  unfold hexDecode hexEncode64
  rw [hexEncodeAux_foldl 64 v 0 (by norm_num; omega)]
  simp

theorem decDigit_roundtrip : ∀ d, d < 10 → (decDigitChar d).toNat - 48 = d := by
  decide

theorem decEncodeAux_foldl :
    ∀ (n : Nat), ∀ (a : Nat),
      (decEncodeAux n).foldl (fun acc ch => acc * 10 + (ch.toNat - 48)) a =
        a * 10 ^ (decEncodeAux n).length + n := by
  intro n
  induction n using Nat.strong_induction_on with
  | _ n ih =>
    intro a
    by_cases h0 : n = 0
    · subst h0
      rw [decEncodeAux]
      simp
    · rw [decEncodeAux, dif_neg h0, List.foldl_append]
      simp only [List.foldl_cons, List.foldl_nil]
      rw [ih (n / 10) (Nat.div_lt_self (Nat.pos_of_ne_zero h0) (by norm_num)) a,
        decDigit_roundtrip (n % 10) (Nat.mod_lt _ (by norm_num))]
      simp only [List.length_append, List.length_cons, List.length_nil]
      rw [pow_succ]
      calc (a * 10 ^ (decEncodeAux (n / 10)).length + n / 10) * 10 + n % 10
          = a * (10 ^ (decEncodeAux (n / 10)).length * 10) +
              (10 * (n / 10) + n % 10) := by ring
      _ = a * (10 ^ (decEncodeAux (n / 10)).length * 10) + n := by
          rw [Nat.div_add_mod]

theorem decDecode_decEncode (n : Nat) : decDecode (decEncode n) = n := by
  by_cases h0 : n = 0
  · subst h0; decide
  · unfold decDecode decEncode
    rw [if_neg h0, decEncodeAux_foldl n 0]
    simp

/-- C9: the `longpollid` round-trip.  The emitted token is the
64-character hex tip hash immediately followed by the decimal counter
(a C++ `unsigned int`, hence `c < 2 ^ 32`), and parsing — first 64
characters through `SetHex`, remainder through `atoi64` — recovers
exactly the tip hash and counter that produced it. -/
theorem C9_longpollid_roundtrip (h c : Nat) (hh : h < 2 ^ 256)
    (hc : c < 2 ^ 32) :
    (hexEncode64 h).length = 64 ∧
    (makeLongpollid h c).take 64 = hexEncode64 h ∧
    (makeLongpollid h c).drop 64 = decEncode c ∧
    parseLongpollid (makeLongpollid h c) = (h, c) := by
  have hlen : (hexEncode64 h).length = 64 := hexEncodeAux_length 64 h
  have htake : (makeLongpollid h c).take 64 = hexEncode64 h := by
    unfold makeLongpollid
    rw [← hlen, List.take_left]
  have hdrop : (makeLongpollid h c).drop 64 = decEncode c := by
    unfold makeLongpollid
    rw [← hlen, List.drop_left]
  refine ⟨hlen, htake, hdrop, ?_⟩
  unfold parseLongpollid
  rw [htake, hdrop, hexDecode_hexEncode64 h hh, decDecode_decEncode]

/-- Witness for C9: tip hash 1 and counter 0. -/
theorem C9_longpollid_roundtrip_witness :
    (1 : Nat) < 2 ^ 256 ∧ (0 : Nat) < 2 ^ 32 ∧
    ((hexEncode64 1).length = 64 ∧
      (makeLongpollid 1 0).take 64 = hexEncode64 1 ∧
      (makeLongpollid 1 0).drop 64 = decEncode 0 ∧
      parseLongpollid (makeLongpollid 1 0) = (1, 0)) :=
  ⟨by norm_num, by norm_num,
   C9_longpollid_roundtrip 1 0 (by norm_num) (by norm_num)⟩

end MiningRPC
